import Mathlib

/-!
# Verification of ngx-ui-router-url-type-factory

A shallow embedding of `src/factory/url-type-factory.service.ts` (the Type
Registry, the per-type codec installed on the router's URL type system, and
the Transition Resolver `doTransition`), together with proofs of the spec's
claims about it.

JavaScript values relevant to the code are modelled by the inductive `Val`:
strings, `null`, `undefined`, and objects.  An object (`JsObj`) carries a
reference identity `oid`, an optional own-property `REPR_TOKEN` (`reprM`) and
an optional own-property `RSLV_TOKEN` (`rslvM`).  The resolver closure stored
under `RSLV_TOKEN` is pure in this model, so it is represented by its result
(`ResolveRes`), the value the closure returns each time it is invoked.
A resolve result is either a plain non-thenable value without a usable
`$promise` field (`direct`), a native thenable whose eventual settlement is
`o` (`native o`), an object whose `$promise` field is a thenable settling to
`o` (`wrapped o`), or an object whose `$promise` field exists but is not a
thenable (`wrappedNon v`, where `v` is the object itself as a value).
`POutcome` is the settlement of a promise: fulfilled with a value or rejected
with a reason value.
-/

mutual

inductive Val : Type where
  | str : String → Val
  | null : Val
  | undefined : Val
  | obj : JsObj → Val

inductive JsObj : Type where
  | mk : (oid : Nat) → (reprM : Option Val) → (rslvM : Option ResolveRes) → JsObj

inductive ResolveRes : Type where
  | direct : Val → ResolveRes
  | native : POutcome → ResolveRes
  | wrapped : POutcome → ResolveRes
  | wrappedNon : Val → ResolveRes

inductive POutcome : Type where
  | fulfilled : Val → POutcome
  | rejected : Val → POutcome

end

/-- The `oid` (reference identity) of an object. -/
def JsObj.oid : JsObj → Nat
  | .mk i _ _ => i

/-- The own-property `REPR_TOKEN` of an object, if present. -/
def JsObj.reprM : JsObj → Option Val
  | .mk _ r _ => r

/-- The own-property `RSLV_TOKEN` of an object, if present. -/
def JsObj.rslvM : JsObj → Option ResolveRes
  | .mk _ _ s => s

/-- JavaScript truthiness of a modelled value: objects are always truthy,
`null`/`undefined` are falsy, a string is truthy iff non-empty. -/
def truthy : Val → Bool
  | .str s => s ≠ ""
  | .null => false
  | .undefined => false
  | .obj _ => true

/-- Whether `typeof v === 'object'` holds (true for objects and for `null`). -/
def typeofObject : Val → Bool
  | .obj _ => true
  | .null => true
  | _ => false

/-- JavaScript strict equality `===` on modelled values.  Objects compare by
reference identity; primitives by value; distinct kinds are never equal. -/
def strictEq : Val → Val → Bool
  | .str a, .str b => a = b
  | .null, .null => true
  | .undefined, .undefined => true
  | .obj a, .obj b => a.oid = b.oid
  | _, _ => false

/-- Reading property `REPR_TOKEN` off a value: an object yields its `reprM`
(or `undefined` when absent); string property access yields `undefined`.
(The code never reads the token off `null`/`undefined`, which would throw.) -/
def reprProp : Val → Val
  | .obj o => o.reprM.getD .undefined
  | _ => .undefined

/-- Reading property `RSLV_TOKEN` off a value, as an optional closure. -/
def rslvProp : Val → Option ResolveRes
  | .obj o => o.rslvM
  | _ => none

/-- `hasOwnProperty(REPR_TOKEN)`. -/
def hasRepr : Val → Bool
  | .obj o => o.reprM.isSome
  | _ => false

/-- `hasOwnProperty(RSLV_TOKEN)`. -/
def hasRslv : Val → Bool
  | .obj o => o.rslvM.isSome
  | _ => false

/-! ## Type Descriptors and the installed codec

`UrlType` embeds the `UrlType<T>` interface: a name, a match pattern (kept
opaque as its regex source string), a `represent` function producing the URL
representation string of a value, a `resolve` function producing a resolve
result from the matched value and the injector, and the `bindable` flag
(absent in TS means `undefined`, i.e. falsy; modelled as `false`). -/

/-- The Angular `Injector` passed through to `resolve`; opaque here. -/
structure Injector : Type where
  ctx : Nat

/-- A Type Descriptor (`UrlType<T>` in the source). -/
structure UrlType : Type where
  name : String
  matchPattern : String
  represent : Val → String
  resolve : Val → Injector → ResolveRes
  bindable : Bool

/-- `UrlTypeFactoryRegistrationError`: thrown when a second descriptor is
registered under an already-taken name; its message interpolates that name. -/
structure UrlTypeFactoryRegistrationError : Type where
  name : String
deriving DecidableEq

/-- `UrlTypeFactoryResolveError`: thrown when a parameter's resolution
rejects; its message interpolates the parameter id and the rejection
reason. -/
structure UrlTypeFactoryResolveError : Type where
  paramId : String
  cause : Val

/-- `encode` of the codec installed for descriptor `t`
(url-type-factory.service.ts lines 239-245): if `obj[REPR_TOKEN]` is truthy
return it, else return `type.represent(obj)`. -/
def encode (t : UrlType) (obj : Val) : Val :=
  if truthy (reprProp obj) then reprProp obj
  else .str (t.represent obj)

/-- `decode` of the codec installed for descriptor `t`
(url-type-factory.service.ts lines 246-258): when `repr` is a truthy object,
build a fresh object whose `REPR_TOKEN` is `type.represent(repr)` and whose
`RSLV_TOKEN` closure returns `repr`; otherwise build one whose `REPR_TOKEN`
is `repr` itself and whose `RSLV_TOKEN` closure calls
`type.resolve(repr, injector)`.  The fresh object's reference identity is
irrelevant to the code (it is never compared by reference), so it is 0. -/
def decode (t : UrlType) (injector : Injector) (repr : Val) : Val :=
  if truthy repr ∧ typeofObject repr = true then
    .obj (.mk 0 (some (.str (t.represent repr))) (some (.direct repr)))
  else
    .obj (.mk 0 (some repr) (some (t.resolve repr injector)))

/-- `is` of the installed codec: truthy, an object, and carrying both hidden
marker properties. -/
def isTypeVal (obj : Val) : Bool :=
  truthy obj && typeofObject obj && hasRepr obj && hasRslv obj

/-- `equals` of the codec installed for descriptor `t`
(url-type-factory.service.ts lines 265-285): if both arguments are truthy
objects carrying `REPR_TOKEN`, compare the two marker values with `===`;
else if both are truthy objects, compare `represent` outputs
case-insensitively; else compare with `===`. -/
def equals (t : UrlType) (a b : Val) : Bool :=
  if truthy a && truthy b && typeofObject a && typeofObject b
      && hasRepr a && hasRepr b then
    strictEq (reprProp a) (reprProp b)
  else if truthy a && truthy b && typeofObject a && typeofObject b then
    (t.represent a).toUpper = (t.represent b).toUpper
  else
    strictEq a b

/-- The parameter type definition record `{encode, decode, is, equals,
pattern}` handed to `router.urlService.config.type`. -/
structure ParamTypeDef : Type where
  encode : Val → Val
  decode : Val → Val
  isType : Val → Bool
  equals : Val → Val → Bool
  pattern : String

/-- The codec record that `registerType` installs for descriptor `t`. -/
def installedTypeDef (t : UrlType) (injector : Injector) : ParamTypeDef :=
  { encode := encode t
    decode := decode t injector
    isType := isTypeVal
    equals := equals t
    pattern := t.matchPattern }

/-! ## The Type Registry (`UrlTypeFactoryService`) -/

/-- The router's URL type configuration: the list of (name, codec) pairs
installed so far by `router.urlService.config.type`. -/
abbrev Router : Type := List (String × ParamTypeDef)

/-- The mutable state of `UrlTypeFactoryService`: the registered descriptors
and the bindable subset. -/
structure UrlTypeFactoryService : Type where
  _registeredTypes : List UrlType
  _bindableTypes : List UrlType

/-- The service state at construction time. -/
def emptyService : UrlTypeFactoryService :=
  { _registeredTypes := [], _bindableTypes := [] }

/-- `registerType` (url-type-factory.service.ts lines 211-231 and onward):
throws a `UrlTypeFactoryRegistrationError` if a descriptor with the same
name is already registered; otherwise pushes the descriptor onto
`_registeredTypes` (and onto `_bindableTypes` when `bindable` is truthy) and
installs the codec on the router under the descriptor's name. -/
def registerType (svc : UrlTypeFactoryService) (t : UrlType) (router : Router)
    (injector : Injector) :
    Except UrlTypeFactoryRegistrationError (UrlTypeFactoryService × Router) :=
  match svc._registeredTypes.find? (fun rt => rt.name = t.name) with
  | some rt => .error ⟨rt.name⟩
  | none =>
      .ok ({ _registeredTypes := svc._registeredTypes ++ [t]
             _bindableTypes :=
               svc._bindableTypes ++ (if t.bindable then [t] else []) },
           router ++ [(t.name, installedTypeDef t injector)])

/-- `getTypeByName` (url-type-factory.service.ts lines 158-167): first
registered descriptor with the given name from the requested subset, `null`
(here `none`) if absent. -/
def getTypeByName (svc : UrlTypeFactoryService) (name : String)
    (bindableOnly : Bool) : Option UrlType :=
  let types := if bindableOnly then svc._bindableTypes else svc._registeredTypes
  types.find? (fun t => t.name = name)

/-- Registering a sequence of descriptors in order, as the bootstrap glue
does; a registration that throws leaves the service and router unchanged
(the exception aborts startup, but the state visible afterwards is the
pre-call state). -/
def registerAll (svc : UrlTypeFactoryService) (router : Router)
    (injector : Injector) (ts : List UrlType) :
    UrlTypeFactoryService × Router :=
  ts.foldl
    (fun (sr : UrlTypeFactoryService × Router) t =>
      match registerType sr.1 t sr.2 injector with
      | .ok sr' => sr'
      | .error _ => sr)
    (svc, router)

/-! ## States, parameters, and transitions

Only the shape of the external ui-router objects that the service reads is
embedded: a `StateObject` has an ordered `path` of states, each with its own
`params` record mapping parameter names to `Param` declarations; a `Param`
exposes its stable `id` and its type's `name`.  A `Transition` exposes the
target state, the target parameter values (`params('to')`), the `'to'` part
of `treeChanges()` (a list of path nodes each holding its own `paramValues`
record), and the resolvables registered so far via `addResolvable`. -/

/-- A ui-router parameter declaration as read by the service: its id and the
name of its declared type. -/
structure Param : Type where
  id : String
  typeName : String
deriving DecidableEq

/-- One state on a state's path: its `params` record, in key order. -/
structure PathState : Type where
  params : List Param
deriving DecidableEq

/-- A ui-router `StateObject`, reduced to its `path`. -/
structure StateObject : Type where
  path : List PathState
deriving DecidableEq

/-- `getTypeParamsFromStateObject` (url-type-factory.service.ts lines
175-192): walk every path state's params and collect those whose declared
type name is registered in the requested subset. -/
def getTypeParamsFromStateObject (svc : UrlTypeFactoryService)
    (state : StateObject) (bindableOnly : Bool) : List Param :=
  state.path.foldl
    (fun found pathState =>
      pathState.params.foldl
        (fun found2 param =>
          if (getTypeByName svc param.typeName bindableOnly).isSome then
            found2 ++ [param]
          else
            found2)
        found)
    []

/-- `getTypeIdsFromStateObject` (url-type-factory.service.ts lines 198-205):
the ids of the typed parameters of a state. -/
def getTypeIdsFromStateObject (svc : UrlTypeFactoryService)
    (state : StateObject) (bindableOnly : Bool) : List String :=
  (getTypeParamsFromStateObject svc state bindableOnly).map (fun p => p.id)

/-- A record of parameter values keyed by parameter id, in key order;
`hasOwnProperty` is key membership. -/
abbrev ParamValues : Type := List (String × Val)

/-- `record[key]` — `undefined` when the key is absent. -/
def getProp (m : ParamValues) (k : String) : Val :=
  ((m.find? (fun p => p.1 = k)).map (fun p => p.2)).getD .undefined

/-- `record.hasOwnProperty(key)`. -/
def hasProp (m : ParamValues) (k : String) : Bool :=
  m.any (fun p => p.1 = k)

/-- `record[key] = v`: overwrite the value under an existing key (the code
only assigns to keys it has checked with `hasOwnProperty`). -/
def setProp (m : ParamValues) (k : String) (v : Val) : ParamValues :=
  m.map (fun p => if p.1 = k then (k, v) else p)

/-- One node of `transition.treeChanges()['to']`, reduced to its own
`paramValues` record. -/
structure TreeNode : Type where
  paramValues : ParamValues

/-- A ui-router `Transition`, reduced to what `doTransition` touches. -/
structure Transition : Type where
  targetState : StateObject
  toParams : ParamValues
  treeTo : List TreeNode
  resolvables : List String

/-- The promise normalization inside `doTransition`
(url-type-factory.service.ts lines 88-103):
`targetParamPromise = targetParamResolved && targetParamResolved['$promise']`,
and when that is not a thenable (absent, falsy, or without a callable
`then`), `targetParamPromise = Promise.resolve(targetParamResolved)` — which
adopts `targetParamResolved` itself when it is a native thenable, and
otherwise yields an already-fulfilled promise of it. -/
def normalizeResolved : ResolveRes → POutcome
  | .wrapped o => o
  | .native o => o
  | .direct v => .fulfilled v
  | .wrappedNon v => .fulfilled v

/-- The settlement of the resolution of parameter `id` on transition `tr`:
look up `targetParams[id]`, invoke its `RSLV_TOKEN` closure, and normalize.
`none` models the synchronous `TypeError` the code would throw when the
value is not a Decoded Parameter Value carrying the resolver marker. -/
def paramSettlement (tr : Transition) (id : String) : Option POutcome :=
  (rslvProp (getProp tr.toParams id)).map normalizeResolved

/-- `nodeParamValues[id] = resolved` applied to every node of
`treeChanges()['to']` whose own `paramValues` contains `id`
(url-type-factory.service.ts lines 112-121). -/
def writeBack (nodes : List TreeNode) (id : String) (v : Val) :
    List TreeNode :=
  nodes.map (fun n =>
    if hasProp n.paramValues id then
      { paramValues := setProp n.paramValues id v }
    else n)

/-- The transition state after one fulfilled iteration of the `doTransition`
loop: the write-back applied, and the id appended to the resolvables when
bindable. -/
def rpStepOk (tr : Transition) (bids : List String) (id : String) (v : Val) :
    Transition :=
  let tr1 : Transition := { tr with treeTo := writeBack tr.treeTo id v }
  if bids.contains id then { tr1 with resolvables := tr1.resolvables ++ [id] }
  else tr1

/-- The transition state after one rejected iteration of the `doTransition`
loop: no write-back, but a bindable id is still registered as resolvable. -/
def rpStepErr (tr : Transition) (bids : List String) (id : String) :
    Transition :=
  if bids.contains id then { tr with resolvables := tr.resolvables ++ [id] }
  else tr

/-- The per-parameter loop of `doTransition`, processing `ids` in order.
For each id the resolver closure of `targetParams[id]` is invoked and its
result normalized; a fulfilled resolution writes the resolved value back
into every tree node declaring the id and contributes `Except.ok resolved`
to the promise list, while a rejected one contributes the
`UrlTypeFactoryResolveError` wrapping the id and the rejection reason
(neither stops the loop: in the source all resolutions are launched and
settle independently, only the `Promise.all` aggregate fails).  Bindable
ids additionally register a resolvable named by the id; both per-iteration
state updates are `rpStepOk`/`rpStepErr`.  `none` models the synchronous
crash on a value without a resolver marker. -/
def runParams (tr : Transition) (bindableIds : List String) :
    List String →
    Option (Transition × List (Except UrlTypeFactoryResolveError Val))
  | [] => some (tr, [])
  | id :: ids =>
      match paramSettlement tr id with
      | none => none
      | some (.fulfilled v) =>
          match runParams (rpStepOk tr bindableIds id v) bindableIds ids with
          | none => none
          | some (tr3, rest) => some (tr3, .ok v :: rest)
      | some (.rejected e) =>
          match runParams (rpStepErr tr bindableIds id) bindableIds ids with
          | none => none
          | some (tr3, rest) =>
              some (tr3, .error (UrlTypeFactoryResolveError.mk id e) :: rest)

/-- `Promise.all` over a list of already-settled promises: fulfilled with
the list of values when all fulfilled, otherwise rejected with the first
rejection. -/
def promiseAll (rs : List (Except UrlTypeFactoryResolveError Val)) :
    Except UrlTypeFactoryResolveError (List Val) :=
  match rs with
  | [] => .ok []
  | .ok v :: rest => (promiseAll rest).map (fun vs => v :: vs)
  | .error e :: _ => .error e

/-- `doTransition` (url-type-factory.service.ts lines 80-150): compute the
typed parameter ids (and bindable ids) of the target state, resolve every
one, write fulfilled values back into the target tree nodes, register
bindable resolvables, and return the `Promise.all` aggregate.  The returned
pair is the transition state afterwards and the aggregate settlement. -/
def doTransition (svc : UrlTypeFactoryService) (tr : Transition) :
    Option (Transition × Except UrlTypeFactoryResolveError (List Val)) :=
  match runParams tr (getTypeIdsFromStateObject svc tr.targetState true)
      (getTypeIdsFromStateObject svc tr.targetState false) with
  | none => none
  | some (tr', rs) => some (tr', promiseAll rs)

/-! ## Characterization helpers for `doTransition`

These re-express the per-parameter processing of `doTransition` as functions
of the (unchanging) target parameter record, so that the loop can be related
to independent per-id settlements. -/

/-- The settlement of the resolution of parameter `id` read off a target
parameter record: invoke the stored resolver closure and normalize. -/
def settleOf (params : ParamValues) (id : String) : Option POutcome :=
  (rslvProp (getProp params id)).map normalizeResolved

/-- The per-parameter contribution to the list joined by `Promise.all`:
`ok` with the resolved value, or the `UrlTypeFactoryResolveError` wrapping
the parameter id and the rejection reason. -/
def settleExcept (params : ParamValues) (id : String) :
    Option (Except UrlTypeFactoryResolveError Val) :=
  (settleOf params id).map fun o =>
    match o with
    | .fulfilled v => .ok v
    | .rejected e => .error (UrlTypeFactoryResolveError.mk id e)

/-- The effect of one parameter's settlement on one tree node: a fulfilled
settlement overwrites the node's value under the id when the node declares
it; anything else leaves the node alone. -/
def commitStep (params : ParamValues) (n : TreeNode) (id : String) :
    TreeNode :=
  match settleOf params id with
  | some (.fulfilled v) =>
      if hasProp n.paramValues id then
        { paramValues := setProp n.paramValues id v }
      else n
  | _ => n

/-- The cumulative effect of all the parameters' write-backs on one tree
node, in id order. -/
def nodeCommit (params : ParamValues) (ids : List String) (n : TreeNode) :
    TreeNode :=
  ids.foldl (commitStep params) n

/-! ## Concrete instances used by witnesses and counterexamples -/

/-- A concrete injector. -/
def sampleInjector : Injector := ⟨0⟩

/-- A concrete bindable descriptor, after the test suite's `SyncTestType`:
`represent` is constantly "1" and `resolve` returns the fetched object
directly. -/
def syncTestType : UrlType :=
  { name := "SyncTest"
    matchPattern := "d+"
    represent := fun _ => "1"
    resolve := fun _ _ => .direct (.obj (.mk 7 none none))
    bindable := true }

/-- A second descriptor reusing the name "SyncTest" (differing otherwise). -/
def syncTestTypeClash : UrlType :=
  { name := "SyncTest"
    matchPattern := "x+"
    represent := fun _ => "2"
    resolve := fun _ _ => .direct .null
    bindable := false }

/-- A non-bindable descriptor under a fresh name, after the test suite's
`ResolveTestType`; its `resolve` rejects. -/
def resolveTestType : UrlType :=
  { name := "ResolveTest"
    matchPattern := "d+"
    represent := fun _ => "3"
    resolve := fun _ _ => .native (.rejected (.str "resolve-error"))
    bindable := false }

/-- A descriptor agreeing with `syncTestType` on `represent` but with a
different `resolve`; used to witness that certain codec paths never invoke
`resolve`. -/
def syncTestTypeAltResolve : UrlType :=
  { syncTestType with
    name := "SyncTestAlt"
    resolve := fun _ _ => .native (.fulfilled .null) }

/-- Whether a value is a (non-null) object; equivalently, truthy with
`typeof v === 'object'`. -/
def isObject : Val → Bool
  | .obj _ => true
  | _ => false

/-- The resolved domain object produced by `syncTestType.resolve`. -/
def syncResolvedObj : Val := .obj (.mk 7 none none)

/-- A registry holding `syncTestType` (bindable) and `resolveTestType`. -/
def sampleSvc : UrlTypeFactoryService :=
  { _registeredTypes := [syncTestType, resolveTestType]
    _bindableTypes := [syncTestType] }

/-- A registry holding only `syncTestType`. -/
def sampleSvcOk : UrlTypeFactoryService :=
  { _registeredTypes := [syncTestType], _bindableTypes := [syncTestType] }

/-- A target state declaring `param1 : SyncTest` on its first path state and
`param2 : ResolveTest` on its second. -/
def sampleState : StateObject :=
  ⟨[⟨[⟨"param1", "SyncTest"⟩]⟩, ⟨[⟨"param2", "ResolveTest"⟩]⟩]⟩

/-- A target state declaring only `param1 : SyncTest`. -/
def sampleStateOk : StateObject := ⟨[⟨[⟨"param1", "SyncTest"⟩]⟩]⟩

/-- A transition to `sampleStateOk` whose target parameter `param1` holds
the value decoded from the URL segment "42", with two tree nodes declaring
the parameter (still holding the decoded carrier). -/
def sampleTransitionOk : Transition :=
  { targetState := sampleStateOk
    toParams := [("param1", decode syncTestType sampleInjector (.str "42"))]
    treeTo := [⟨[("param1", decode syncTestType sampleInjector (.str "42"))]⟩,
               ⟨[("param1", decode syncTestType sampleInjector (.str "42"))]⟩]
    resolvables := [] }

/-- A transition to `sampleState` where `param1` resolves and `param2`
rejects. -/
def sampleTransitionFail : Transition :=
  { targetState := sampleState
    toParams := [("param1", decode syncTestType sampleInjector (.str "42")),
                 ("param2", decode resolveTestType sampleInjector (.str "7"))]
    treeTo := [⟨[("param1", decode syncTestType sampleInjector (.str "42")),
                 ("param2", decode resolveTestType sampleInjector (.str "7"))]⟩]
    resolvables := [] }

/-- The transition state after `doTransition` succeeds on
`sampleTransitionOk`: both tree nodes hold the resolved object and the
bindable parameter is registered as a resolvable. -/
def sampleTransitionOkAfter : Transition :=
  { targetState := sampleStateOk
    toParams := [("param1", decode syncTestType sampleInjector (.str "42"))]
    treeTo := [{ paramValues := [("param1", syncResolvedObj)] },
               { paramValues := [("param1", syncResolvedObj)] }]
    resolvables := ["param1"] }

/-- A transition whose `param1` value carries a resolver closure returning
a native awaitable fulfilling with "v"; used to witness normalization. -/
def sampleTransitionNative : Transition :=
  { targetState := sampleStateOk
    toParams := [("param1",
      .obj (.mk 0 none (some (.native (.fulfilled (.str "v"))))))]
    treeTo := []
    resolvables := [] }

/-! ## Registry lemmas -/

/-- Unfolding of `registerAll` on a cons: perform the first registration
(keeping the old state when it throws) and continue. -/
theorem registerAll_cons (svc : UrlTypeFactoryService) (router : Router)
    (injector : Injector) (t : UrlType) (ts : List UrlType) :
    registerAll svc router injector (t :: ts) =
      match registerType svc t router injector with
      | .ok sr' => registerAll sr'.1 sr'.2 injector ts
      | .error _ => registerAll svc router injector ts := by
  cases h : registerType svc t router injector <;>
    simp [registerAll, List.foldl_cons, h]

/-- A name already resolvable in the registry keeps resolving to the same
descriptor under any further sequence of registrations. -/
theorem getTypeByName_registerAll_of_some (injector : Injector)
    (ts : List UrlType) :
    ∀ (svc : UrlTypeFactoryService) (router : Router) (d : UrlType)
      (n : String), getTypeByName svc n false = some d →
      getTypeByName (registerAll svc router injector ts).1 n false = some d := by
  induction ts with
  | nil => intro svc router d n h; simpa [registerAll] using h
  | cons t ts ih =>
      intro svc router d n h
      rw [registerAll_cons]
      cases hf : svc._registeredTypes.find? (fun rt => rt.name = t.name) with
      | some rt => simp only [registerType, hf]; exact ih _ _ _ _ h
      | none =>
          simp only [registerType, hf]
          apply ih
          simp only [getTypeByName, if_neg Bool.false_ne_true,
            List.find?_append] at h ⊢
          rw [h]; rfl

/-- A name not yet in the registry ends up resolving, after a sequence of
registrations, to the first descriptor in the sequence carrying it. -/
theorem getTypeByName_registerAll_of_none (injector : Injector)
    (ts : List UrlType) :
    ∀ (svc : UrlTypeFactoryService) (router : Router) (n : String),
      getTypeByName svc n false = none →
      getTypeByName (registerAll svc router injector ts).1 n false =
        ts.find? (fun d => d.name = n) := by
  induction ts with
  | nil => intro svc router n h; simpa [registerAll] using h
  | cons t ts ih =>
      intro svc router n h
      rw [registerAll_cons]
      simp only [getTypeByName, if_neg Bool.false_ne_true] at h
      cases hf : svc._registeredTypes.find? (fun rt => rt.name = t.name) with
      | some rt =>
          simp only [registerType, hf]
          have hrtmem := List.mem_of_find?_eq_some hf
          have hrtname : rt.name = t.name := by
            have := List.find?_some hf
            simpa using this
          have htn : t.name ≠ n := by
            intro he
            have := (List.find?_eq_none.mp h) rt hrtmem
            simp [hrtname, he] at this
          rw [List.find?_cons_of_neg _ (by simpa using htn)]
          exact ih _ _ _ (by simpa [getTypeByName] using h)
      | none =>
          simp only [registerType, hf]
          by_cases htn : t.name = n
          · rw [List.find?_cons_of_pos _ (by simpa using htn)]
            apply getTypeByName_registerAll_of_some
            simp [getTypeByName, List.find?_append, h, htn]
          · rw [List.find?_cons_of_neg _ (by simpa using htn)]
            apply ih
            simp [getTypeByName, List.find?_append, h, htn]


/-! ## Claims -/

/-- C1: registering a descriptor under a name that is already registered
throws a `UrlTypeFactoryRegistrationError` — and, the throw aborting the
method before any mutation, leaves `_registeredTypes` and `_bindableTypes`
unchanged — while registering under a fresh name succeeds, appends the
descriptor to `_registeredTypes`, and appends it to `_bindableTypes` exactly
when its `bindable` flag is true.  Consequently, over every sequence of
`registerType` calls starting from the empty registry, every name resolves
to the first descriptor of the sequence registered under it. -/
theorem registerType_first_registration_wins (svc : UrlTypeFactoryService)
    (t : UrlType) (router : Router) (injector : Injector) :
    ((∃ d ∈ svc._registeredTypes, d.name = t.name) →
      registerType svc t router injector = .error ⟨t.name⟩) ∧
    ((∀ d ∈ svc._registeredTypes, d.name ≠ t.name) →
      registerType svc t router injector =
        .ok ({ _registeredTypes := svc._registeredTypes ++ [t]
               _bindableTypes :=
                 svc._bindableTypes ++ (if t.bindable then [t] else []) },
             router ++ [(t.name, installedTypeDef t injector)])) ∧
    (∀ (ts : List UrlType) (n : String),
      getTypeByName (registerAll emptyService router injector ts).1 n false =
        ts.find? (fun d => d.name = n)) := by
  refine ⟨?_, ?_, ?_⟩
  · rintro ⟨d, hd, hname⟩
    have hf : (svc._registeredTypes.find?
        (fun rt => rt.name = t.name)).isSome := by
      rw [List.find?_isSome]
      exact ⟨d, hd, by simpa using hname⟩
    cases hfe : svc._registeredTypes.find? (fun rt => rt.name = t.name) with
    | none => rw [hfe] at hf; simp at hf
    | some rt =>
        have hrt : rt.name = t.name := by
          have := List.find?_some hfe
          simpa using this
        simp [registerType, hfe, hrt]
  · intro h
    have hfe : svc._registeredTypes.find? (fun rt => rt.name = t.name)
        = none := by
      rw [List.find?_eq_none]
      intro d hd
      simpa using h d hd
    simp [registerType, hfe]
  · intro ts n
    apply getTypeByName_registerAll_of_none
    simp [getTypeByName, emptyService]

/-- Witness for C1, at concrete inputs: with `syncTestType` already
registered, registering `syncTestTypeClash` (same name) throws, registering
`resolveTestType` (fresh name, not bindable) appends it to the registered
set only, and the sequence [syncTestType, syncTestTypeClash] retains the
first descriptor for "SyncTest". -/
theorem registerType_first_registration_wins_witness :
    registerType ⟨[syncTestType], [syncTestType]⟩ syncTestTypeClash []
        sampleInjector = .error ⟨syncTestTypeClash.name⟩ ∧
    registerType ⟨[syncTestType], [syncTestType]⟩ resolveTestType []
        sampleInjector =
      .ok ({ _registeredTypes := [syncTestType] ++ [resolveTestType]
             _bindableTypes := [syncTestType] ++
               (if resolveTestType.bindable then [resolveTestType] else []) },
           [] ++ [(resolveTestType.name,
                    installedTypeDef resolveTestType sampleInjector)]) ∧
    getTypeByName
        (registerAll emptyService [] sampleInjector
          [syncTestType, syncTestTypeClash]).1 "SyncTest" false =
      [syncTestType, syncTestTypeClash].find? (fun d => d.name = "SyncTest") := by
  have h := registerType_first_registration_wins
    ⟨[syncTestType], [syncTestType]⟩ syncTestTypeClash [] sampleInjector
  have h2 := registerType_first_registration_wins
    ⟨[syncTestType], [syncTestType]⟩ resolveTestType [] sampleInjector
  refine ⟨h.1 ⟨syncTestType, by simp, rfl⟩, h2.2.1 ?_, h2.2.2 _ _⟩
  intro d hd
  simp only [List.mem_singleton] at hd
  subst hd
  simp [syncTestType, resolveTestType]

/-- C2: decoding a non-null object produces a Decoded Parameter Value whose
representation marker is `represent(raw)` and whose resolver closure returns
`raw` itself — and the result is independent of the descriptor's `resolve`,
i.e. that closure never calls it; decoding anything else (the matched string
from the URL) produces one whose representation marker is the raw string
itself and whose resolver closure calls `resolve(raw, injector)`. -/
theorem decode_object_vs_string (t : UrlType) (injector : Injector) :
    (∀ o : JsObj,
      decode t injector (.obj o) =
        .obj (.mk 0 (some (.str (t.represent (.obj o))))
          (some (.direct (.obj o)))) ∧
      (∀ t' : UrlType, t'.represent = t.represent →
        decode t' injector (.obj o) = decode t injector (.obj o))) ∧
    (∀ s : String,
      decode t injector (.str s) =
        .obj (.mk 0 (some (.str s)) (some (t.resolve (.str s) injector)))) := by
  refine ⟨fun o => ⟨?_, fun t' ht' => ?_⟩, fun s => ?_⟩
  · simp [decode, truthy, typeofObject]
  · simp [decode, truthy, typeofObject, ht']
  · simp [decode, typeofObject]

/-- Witness for C2 at concrete inputs: decoding a concrete domain object
with `syncTestType` (marker "1", resolver returning the object; identical
under `syncTestTypeAltResolve`, which differs only in `resolve`), and
decoding the matched string "42". -/
theorem decode_object_vs_string_witness :
    decode syncTestType sampleInjector (.obj (.mk 5 none none)) =
      .obj (.mk 0 (some (.str (syncTestType.represent (.obj (.mk 5 none none)))))
        (some (.direct (.obj (.mk 5 none none))))) ∧
    decode syncTestTypeAltResolve sampleInjector (.obj (.mk 5 none none)) =
      decode syncTestType sampleInjector (.obj (.mk 5 none none)) ∧
    decode syncTestType sampleInjector (.str "42") =
      .obj (.mk 0 (some (.str "42"))
        (some (syncTestType.resolve (.str "42") sampleInjector))) := by
  have h := decode_object_vs_string syncTestType sampleInjector
  exact ⟨(h.1 _).1, (h.1 _).2 syncTestTypeAltResolve rfl, h.2 "42"⟩

/-- Counterexample to C3 as stated: an object that does carry the
representation marker — with the falsy marker value `""` — for which
`encode` does not return the marker verbatim but calls `represent` instead,
because the source checks the marker's truthiness, not its presence. -/
theorem encode_falsy_marker_counterexample :
    hasRepr (.obj (.mk 0 (some (.str "")) none)) = true ∧
    encode syncTestType (.obj (.mk 0 (some (.str "")) none)) ≠ .str "" ∧
    encode syncTestType (.obj (.mk 0 (some (.str "")) none)) =
      .str (syncTestType.represent (.obj (.mk 0 (some (.str "")) none))) := by
  refine ⟨rfl, ?_, rfl⟩
  rw [show encode syncTestType (.obj (.mk 0 (some (.str "")) none))
      = .str "1" from rfl]
  simp

/-- C3 amended: if the object carries a truthy representation marker,
`encode` returns the marker verbatim — independently of the descriptor, so
`represent` is never called; otherwise (no marker, or a falsy marker such as
the empty string) `encode` returns `represent(obj)`. -/
theorem encode_truthy_marker (t : UrlType) (obj : Val) :
    (truthy (reprProp obj) = true →
      encode t obj = reprProp obj ∧
      ∀ t' : UrlType, encode t' obj = encode t obj) ∧
    (truthy (reprProp obj) = false →
      encode t obj = .str (t.represent obj)) := by
  refine ⟨fun h => ⟨?_, fun t' => ?_⟩, fun h => ?_⟩
  · simp [encode, h]
  · simp [encode, h]
  · simp [encode, h]

/-- Witness for the amended C3: a truthy marker "1" is returned verbatim by
`encode` for both `syncTestType` and `resolveTestType`; an object without a
marker is encoded through `represent`. -/
theorem encode_truthy_marker_witness :
    encode syncTestType (.obj (.mk 0 (some (.str "1")) none)) =
      reprProp (.obj (.mk 0 (some (.str "1")) none)) ∧
    encode resolveTestType (.obj (.mk 0 (some (.str "1")) none)) =
      encode syncTestType (.obj (.mk 0 (some (.str "1")) none)) ∧
    encode syncTestType (.obj (.mk 9 none none)) =
      .str (syncTestType.represent (.obj (.mk 9 none none))) := by
  have h1 := encode_truthy_marker syncTestType (.obj (.mk 0 (some (.str "1")) none))
  have h2 := encode_truthy_marker syncTestType (.obj (.mk 9 none none))
  exact ⟨(h1.1 rfl).1, (h1.1 rfl).2 resolveTestType, h2.2 rfl⟩

/-- Counterexample to C8 as stated: for the matched string `""` (allowed
whenever a type's pattern matches the empty string) the decoded value's
marker is falsy, so `encode` falls through to `represent` applied to the
decoded carrier object and the round-trip fails. -/
theorem encode_decode_empty_counterexample :
    encode syncTestType (decode syncTestType sampleInjector (.str "")) ≠
      .str "" := by
  rw [show encode syncTestType (decode syncTestType sampleInjector (.str ""))
      = .str "1" from rfl]
  simp

/-- C8 amended: for every non-empty matched string `s`, encoding the
Decoded Parameter Value produced by decoding `s` returns exactly `s`. -/
theorem encode_decode_roundtrip (t : UrlType) (injector : Injector)
    (s : String) (h : s ≠ "") :
    encode t (decode t injector (.str s)) = .str s := by
  simp [decode, typeofObject, encode, reprProp, JsObj.reprM, truthy, h]

/-- Witness for the amended C8 at `s = "42"`. -/
theorem encode_decode_roundtrip_witness :
    "42" ≠ "" ∧
    encode syncTestType (decode syncTestType sampleInjector (.str "42")) =
      .str "42" :=
  ⟨by decide, encode_decode_roundtrip syncTestType sampleInjector "42" (by decide)⟩

/-- `===` is symmetric. -/
theorem strictEq_symm (a b : Val) : strictEq a b = strictEq b a := by
  cases a <;> cases b <;> simp [strictEq] <;> exact eq_comm

/-- C7: `equals(a, b)` compares representation markers with `===` when both
arguments are objects carrying the marker, falls back to case-insensitive
comparison of `represent` outputs when both are non-null objects but not
both carry the marker, and otherwise compares the two values with `===`. -/
theorem equals_clauses (t : UrlType) (a b : Val) :
    (isObject a = true → isObject b = true →
      hasRepr a = true → hasRepr b = true →
      equals t a b = strictEq (reprProp a) (reprProp b)) ∧
    (isObject a = true → isObject b = true →
      ¬(hasRepr a = true ∧ hasRepr b = true) →
      equals t a b =
        ((t.represent a).toUpper = (t.represent b).toUpper : Bool)) ∧
    (¬(isObject a = true ∧ isObject b = true) →
      equals t a b = strictEq a b) := by
  refine ⟨?_, ?_, ?_⟩
  · intro ha hb hra hrb
    cases a with
    | obj oa =>
        cases b with
        | obj ob => simp [equals, truthy, typeofObject, hra, hrb]
        | str s => simp [isObject] at hb
        | null => simp [isObject] at hb
        | undefined => simp [isObject] at hb
    | str s => simp [isObject] at ha
    | null => simp [isObject] at ha
    | undefined => simp [isObject] at ha
  · intro ha hb hnr
    cases a with
    | obj oa =>
        cases b with
        | obj ob =>
            have : (hasRepr (Val.obj oa) && hasRepr (Val.obj ob)) = false := by
              cases h1 : hasRepr (Val.obj oa) <;>
                cases h2 : hasRepr (Val.obj ob) <;> simp_all
            simp [equals, truthy, typeofObject, this]
        | str s => simp [isObject] at hb
        | null => simp [isObject] at hb
        | undefined => simp [isObject] at hb
    | str s => simp [isObject] at ha
    | null => simp [isObject] at ha
    | undefined => simp [isObject] at ha
  · intro hno
    cases a with
    | obj oa =>
        cases b with
        | obj ob =>
            exfalso
            exact hno ⟨by simp [isObject], by simp [isObject]⟩
        | str s => simp [equals, truthy, typeofObject]
        | null => simp [equals, truthy, typeofObject]
        | undefined => simp [equals, truthy, typeofObject]
    | str s => cases b <;> simp [equals, truthy, typeofObject]
    | null => cases b <;> simp [equals, truthy, typeofObject]
    | undefined => cases b <;> simp [equals, truthy, typeofObject]

/-- Witness for C7 at concrete inputs: two marker-carrying objects, an
object without marker against one with, and two plain strings. -/
theorem equals_clauses_witness :
    equals syncTestType (.obj (.mk 1 (some (.str "1")) none))
        (.obj (.mk 2 (some (.str "1")) none)) =
      strictEq (reprProp (.obj (.mk 1 (some (.str "1")) none)))
        (reprProp (.obj (.mk 2 (some (.str "1")) none))) ∧
    equals syncTestType (.obj (.mk 1 none none))
        (.obj (.mk 2 (some (.str "1")) none)) =
      ((syncTestType.represent (.obj (.mk 1 none none))).toUpper =
        (syncTestType.represent (.obj (.mk 2 (some (.str "1")) none))).toUpper
        : Bool) ∧
    equals syncTestType (.str "a") (.str "b") =
      strictEq (.str "a") (.str "b") := by
  have h1 := equals_clauses syncTestType (.obj (.mk 1 (some (.str "1")) none))
    (.obj (.mk 2 (some (.str "1")) none))
  have h2 := equals_clauses syncTestType (.obj (.mk 1 none none))
    (.obj (.mk 2 (some (.str "1")) none))
  have h3 := equals_clauses syncTestType (.str "a") (.str "b")
  refine ⟨h1.1 rfl rfl (by decide) (by decide), ?_, h3.2.2 (by decide)⟩
  exact h2.2.1 rfl rfl (by intro h; exact absurd h.1 (by decide))

/-- C10: the installed codec's `equals` is symmetric in its two arguments,
whatever descriptor it was installed for and whatever the inputs are. -/
theorem equals_symmetric (t : UrlType) (a b : Val) :
    equals t a b = equals t b a := by
  cases a with
  | obj oa =>
      cases b with
      | obj ob =>
          cases hra : hasRepr (Val.obj oa) <;>
            cases hrb : hasRepr (Val.obj ob) <;>
            simp [equals, truthy, typeofObject, hra, hrb, strictEq_symm] <;>
            exact eq_comm
      | str s => simp [equals, truthy, typeofObject, strictEq]
      | null => simp [equals, truthy, typeofObject, strictEq]
      | undefined => simp [equals, truthy, typeofObject, strictEq]
  | str s =>
      cases b with
      | str s2 => simp [equals, truthy, typeofObject, strictEq]; exact eq_comm
      | null => simp [equals, truthy, typeofObject, strictEq]
      | undefined => simp [equals, truthy, typeofObject, strictEq]
      | obj o => simp [equals, truthy, typeofObject, strictEq]
  | null =>
      cases b <;> simp [equals, truthy, typeofObject, strictEq]
  | undefined =>
      cases b <;> simp [equals, truthy, typeofObject, strictEq]

/-! ## Transition resolver lemmas -/

/-- `setProp` never changes which keys a record has. -/
theorem hasProp_setProp (m : ParamValues) (k k' : String) (v : Val) :
    hasProp (setProp m k v) k' = hasProp m k' := by
  unfold hasProp setProp
  rw [List.any_map]
  congr 1
  funext p
  by_cases h : p.1 = k <;> simp [h]

/-- Overwriting an existing key stores the new value under it. -/
theorem getProp_setProp_self (m : ParamValues) (k : String) (v : Val)
    (h : hasProp m k = true) : getProp (setProp m k v) k = v := by
  induction m with
  | nil => simp [hasProp] at h
  | cons p rest ih =>
      by_cases hp : p.1 = k
      · simp [setProp, getProp, hp]
      · have h' : hasProp rest k = true := by
          simpa [hasProp, List.any_cons, hp] using h
        have := ih h'
        simpa [setProp, getProp, hp] using this

/-- Overwriting one key leaves every other key's value unchanged. -/
theorem getProp_setProp_ne (m : ParamValues) (k k' : String) (v : Val)
    (h : k' ≠ k) : getProp (setProp m k v) k' = getProp m k' := by
  induction m with
  | nil => rfl
  | cons p rest ih =>
      by_cases hp : p.1 = k
      · have hk : ¬(k = k') := fun he => h he.symm
        have hp' : ¬(p.1 = k') := by rw [hp]; exact hk
        simpa [setProp, getProp, hp, hk, hp'] using ih
      · by_cases hp' : p.1 = k'
        · simp [setProp, getProp, hp, hp', h]
        · simpa [setProp, getProp, hp, hp'] using ih

/-- The per-transition settlement is a function of the target parameter
record only. -/
theorem paramSettlement_eq_settleOf (tr : Transition) (id : String) :
    paramSettlement tr id = settleOf tr.toParams id := rfl

/-- A commit step never changes which keys a node has. -/
theorem hasProp_commitStep (params : ParamValues) (n : TreeNode)
    (id k : String) :
    hasProp (commitStep params n id).paramValues k = hasProp n.paramValues k := by
  unfold commitStep
  cases hso : settleOf params id with
  | none => rfl
  | some o =>
      cases o with
      | fulfilled v =>
          by_cases h : hasProp n.paramValues id = true <;>
            simp [h, hasProp_setProp]
      | rejected e => rfl

/-- A full commit never changes which keys a node has. -/
theorem hasProp_nodeCommit (params : ParamValues) (ids : List String) :
    ∀ (n : TreeNode) (k : String),
      hasProp (nodeCommit params ids n).paramValues k = hasProp n.paramValues k := by
  induction ids with
  | nil => intro n k; rfl
  | cons id ids ih =>
      intro n k
      show hasProp (nodeCommit params ids (commitStep params n id)).paramValues k = _
      rw [ih, hasProp_commitStep]

/-- After the full commit, a node declaring a parameter whose settlement
fulfilled with `v` holds `v` under that id (whether the id is among the ids
still to be processed, or its value is already `v`). -/
theorem getProp_nodeCommit (params : ParamValues) (id : String) (v : Val)
    (hs : settleOf params id = some (.fulfilled v)) :
    ∀ (ids : List String) (n : TreeNode),
      hasProp n.paramValues id = true →
      (id ∈ ids ∨ getProp n.paramValues id = v) →
      getProp (nodeCommit params ids n).paramValues id = v := by
  intro ids
  induction ids with
  | nil =>
      intro n hhas hcase
      cases hcase with
      | inl h => simp at h
      | inr h => exact h
  | cons j ids ih =>
      intro n hhas hcase
      show getProp (nodeCommit params ids (commitStep params n j)).paramValues id = v
      apply ih
      · rw [hasProp_commitStep]; exact hhas
      · by_cases hj : j = id
        · right
          subst hj
          unfold commitStep
          rw [hs]
          simp only [hhas, if_true]
          exact getProp_setProp_self _ _ _ hhas
        · have hpres : getProp (commitStep params n j).paramValues id =
              getProp n.paramValues id := by
            unfold commitStep
            cases hso : settleOf params j with
            | none => rfl
            | some o =>
                cases o with
                | fulfilled w =>
                    by_cases hh : hasProp n.paramValues j = true
                    · simp only [hh, if_true]
                      exact getProp_setProp_ne _ _ _ _ (fun he => hj he.symm)
                    · simp [hh]
                | rejected e => rfl
          cases hcase with
          | inl hmem =>
              cases List.mem_cons.mp hmem with
              | inl h => exact absurd h.symm hj
              | inr h => left; exact h
          | inr hveq => right; rw [hpres]; exact hveq

/-- Unfolding of a commit at a parameter whose settlement fulfilled. -/
theorem nodeCommit_cons_fulfilled (params : ParamValues) (id : String)
    (ids : List String) (v : Val) (n : TreeNode)
    (hs : settleOf params id = some (.fulfilled v)) :
    nodeCommit params (id :: ids) n =
      nodeCommit params ids
        (if hasProp n.paramValues id then
          { paramValues := setProp n.paramValues id v }
        else n) := by
  show nodeCommit params ids (commitStep params n id) = _
  unfold commitStep
  rw [hs]

/-- Unfolding of a commit at a parameter whose settlement rejected. -/
theorem nodeCommit_cons_rejected (params : ParamValues) (id : String)
    (ids : List String) (e : Val) (n : TreeNode)
    (hs : settleOf params id = some (.rejected e)) :
    nodeCommit params (id :: ids) n = nodeCommit params ids n := by
  show nodeCommit params ids (commitStep params n id) = _
  unfold commitStep
  rw [hs]

/-- Unfolding of the `doTransition` loop when the head parameter's value
lacks a resolver marker: the synchronous crash. -/
theorem runParams_cons_none (tr : Transition) (bids : List String)
    (id : String) (ids : List String)
    (hset : paramSettlement tr id = none) :
    runParams tr bids (id :: ids) = none := by
  conv_lhs => unfold runParams
  rw [hset]

/-- Unfolding of the `doTransition` loop at a fulfilled head parameter. -/
theorem runParams_cons_fulfilled (tr : Transition) (bids : List String)
    (id : String) (ids : List String) (v : Val)
    (hset : paramSettlement tr id = some (.fulfilled v)) :
    runParams tr bids (id :: ids) =
      match runParams (rpStepOk tr bids id v) bids ids with
      | none => none
      | some (tr3, rest) => some (tr3, .ok v :: rest) := by
  conv_lhs => unfold runParams
  rw [hset]

/-- Unfolding of the `doTransition` loop at a rejected head parameter. -/
theorem runParams_cons_rejected (tr : Transition) (bids : List String)
    (id : String) (ids : List String) (e : Val)
    (hset : paramSettlement tr id = some (.rejected e)) :
    runParams tr bids (id :: ids) =
      match runParams (rpStepErr tr bids id) bids ids with
      | none => none
      | some (tr3, rest) =>
          some (tr3, .error (UrlTypeFactoryResolveError.mk id e) :: rest) := by
  conv_lhs => unfold runParams
  rw [hset]

/-- `rpStepOk` changes only the tree and the resolvables. -/
theorem rpStepOk_fields (tr : Transition) (bids : List String) (id : String)
    (v : Val) :
    (rpStepOk tr bids id v).toParams = tr.toParams ∧
    (rpStepOk tr bids id v).targetState = tr.targetState ∧
    (rpStepOk tr bids id v).treeTo = writeBack tr.treeTo id v := by
  unfold rpStepOk
  by_cases hb : id ∈ bids <;> simp [hb]

/-- `rpStepErr` changes only the resolvables. -/
theorem rpStepErr_fields (tr : Transition) (bids : List String)
    (id : String) :
    (rpStepErr tr bids id).toParams = tr.toParams ∧
    (rpStepErr tr bids id).targetState = tr.targetState ∧
    (rpStepErr tr bids id).treeTo = tr.treeTo := by
  unfold rpStepErr
  by_cases hb : id ∈ bids <;> simp [hb]

/-- Characterization of the per-parameter loop of `doTransition`: it leaves
the target parameter record and the target state unchanged, its final tree
is the per-node commit of all the parameters, and its promise list consists
of the independent per-id settlements in order. -/
theorem runParams_char (bids : List String) :
    ∀ (ids : List String) (tr tr' : Transition)
      (rs : List (Except UrlTypeFactoryResolveError Val)),
      runParams tr bids ids = some (tr', rs) →
      tr'.toParams = tr.toParams ∧
      tr'.targetState = tr.targetState ∧
      tr'.treeTo = tr.treeTo.map (nodeCommit tr.toParams ids) ∧
      ids.mapM (settleExcept tr.toParams) = some rs := by
  intro ids
  induction ids with
  | nil =>
      intro tr tr' rs h
      simp only [runParams, Option.some.injEq, Prod.mk.injEq] at h
      obtain ⟨h1, h2⟩ := h
      subst h1; subst h2
      refine ⟨rfl, rfl, ?_, rfl⟩
      have hid : nodeCommit tr.toParams [] = fun n => n := rfl
      rw [hid, List.map_id']
  | cons id ids ih =>
      intro tr tr' rs h
      cases hset : paramSettlement tr id with
      | none =>
          rw [runParams_cons_none tr bids id ids hset] at h
          exact absurd h (by simp)
      | some outcome =>
          have hsetOf : settleOf tr.toParams id = some outcome := hset
          cases outcome with
          | fulfilled v =>
              rw [runParams_cons_fulfilled tr bids id ids v hset] at h
              obtain ⟨hto2, hstate2, htree2⟩ := rpStepOk_fields tr bids id v
              cases hrec : runParams (rpStepOk tr bids id v) bids ids with
              | none => rw [hrec] at h; exact absurd h (by simp)
              | some pr =>
                  obtain ⟨tr3, rest⟩ := pr
                  rw [hrec] at h
                  simp only [Option.some.injEq, Prod.mk.injEq] at h
                  obtain ⟨h1, h2⟩ := h
                  subst h1; subst h2
                  obtain ⟨ih1, ih2, ih3, ih4⟩ := ih _ _ _ hrec
                  refine ⟨ih1.trans hto2, ih2.trans hstate2, ?_, ?_⟩
                  · rw [ih3, htree2, hto2]
                    unfold writeBack
                    rw [List.map_map]
                    apply List.map_congr_left
                    intro n _
                    show nodeCommit tr.toParams ids _ =
                      nodeCommit tr.toParams (id :: ids) n
                    rw [nodeCommit_cons_fulfilled tr.toParams id ids v n hsetOf]
                  · rw [List.mapM_cons]
                    rw [hto2] at ih4
                    rw [ih4]
                    simp [settleExcept, hsetOf]
          | rejected e =>
              rw [runParams_cons_rejected tr bids id ids e hset] at h
              obtain ⟨hto2, hstate2, htree2⟩ := rpStepErr_fields tr bids id
              cases hrec : runParams (rpStepErr tr bids id) bids ids with
              | none => rw [hrec] at h; exact absurd h (by simp)
              | some pr =>
                  obtain ⟨tr3, rest⟩ := pr
                  rw [hrec] at h
                  simp only [Option.some.injEq, Prod.mk.injEq] at h
                  obtain ⟨h1, h2⟩ := h
                  subst h1; subst h2
                  obtain ⟨ih1, ih2, ih3, ih4⟩ := ih _ _ _ hrec
                  refine ⟨ih1.trans hto2, ih2.trans hstate2, ?_, ?_⟩
                  · rw [ih3, htree2, hto2]
                    apply List.map_congr_left
                    intro n _
                    rw [nodeCommit_cons_rejected tr.toParams id ids e n hsetOf]
                  · rw [List.mapM_cons]
                    rw [hto2] at ih4
                    rw [ih4]
                    simp [settleExcept, hsetOf]

/-- The loop succeeds (no synchronous crash) whenever every id's settlement
is defined; the per-iteration state updates never touch `toParams`. -/
theorem runParams_isSome (bids : List String) :
    ∀ (ids : List String) (tr : Transition),
      (∀ id ∈ ids, (settleOf tr.toParams id).isSome) →
      (runParams tr bids ids).isSome := by
  intro ids
  induction ids with
  | nil => intro tr _; simp [runParams]
  | cons id ids ih =>
      intro tr hall
      have hid := hall id (by simp)
      cases hset : settleOf tr.toParams id with
      | none => rw [hset] at hid; simp at hid
      | some outcome =>
          have hset' : paramSettlement tr id = some outcome := hset
          cases outcome with
          | fulfilled v =>
              rw [runParams_cons_fulfilled tr bids id ids v hset']
              have hto := (rpStepOk_fields tr bids id v).1
              have hrest : (runParams (rpStepOk tr bids id v) bids ids).isSome := by
                apply ih
                intro j hj
                rw [hto]
                exact hall j (by simp [hj])
              cases hrec : runParams (rpStepOk tr bids id v) bids ids with
              | none => rw [hrec] at hrest; simp at hrest
              | some pr => obtain ⟨tr3, rest⟩ := pr; simp
          | rejected e =>
              rw [runParams_cons_rejected tr bids id ids e hset']
              have hto := (rpStepErr_fields tr bids id).1
              have hrest : (runParams (rpStepErr tr bids id) bids ids).isSome := by
                apply ih
                intro j hj
                rw [hto]
                exact hall j (by simp [hj])
              cases hrec : runParams (rpStepErr tr bids id) bids ids with
              | none => rw [hrec] at hrest; simp at hrest
              | some pr => obtain ⟨tr3, rest⟩ := pr; simp

/-- `Promise.all` fulfills iff every joined promise fulfilled. -/
theorem promiseAll_ok_iff
    (rs : List (Except UrlTypeFactoryResolveError Val)) :
    (∃ vs, promiseAll rs = .ok vs) ↔ ∀ r ∈ rs, ∃ v, r = .ok v := by
  induction rs with
  | nil => simp [promiseAll]
  | cons r rest ih =>
      cases r with
      | ok v =>
          simp only [promiseAll, List.mem_cons]
          constructor
          · rintro ⟨vs, hvs⟩ r hr
            cases hrest : promiseAll rest with
            | error e => rw [hrest] at hvs; exact absurd hvs (by simp [Except.map])
            | ok vs' =>
                cases hr with
                | inl h => exact ⟨v, by rw [h]⟩
                | inr h => exact (ih.mp ⟨vs', hrest⟩) r h
          · intro hall
            obtain ⟨vs', hvs'⟩ := ih.mpr (fun r hr => hall r (Or.inr hr))
            exact ⟨v :: vs', by simp [hvs', Except.map]⟩
      | error e =>
          simp only [promiseAll, List.mem_cons]
          constructor
          · rintro ⟨vs, hvs⟩; exact absurd hvs (by simp)
          · intro hall
            obtain ⟨v, hv⟩ := hall (.error e) (Or.inl rfl)
            exact absurd hv (by simp)

/-- `Promise.all` rejects with the first rejection. -/
theorem promiseAll_first_error (err : UrlTypeFactoryResolveError) :
    ∀ (pre post : List (Except UrlTypeFactoryResolveError Val)),
      (∀ r ∈ pre, ∃ v, r = .ok v) →
      promiseAll (pre ++ .error err :: post) = .error err := by
  intro pre
  induction pre with
  | nil => intro post _; simp [promiseAll]
  | cons r pre ih =>
      intro post hpre
      obtain ⟨v, rfl⟩ := hpre r (by simp)
      have hpp := ih post (fun r hr => hpre r (by simp [hr]))
      have hunf : promiseAll ((Except.ok v :: pre) ++ Except.error err :: post)
          = Except.map (fun vs => v :: vs)
              (promiseAll (pre ++ Except.error err :: post)) := rfl
      rw [hunf, hpp]
      rfl

/-- A successful `mapM` maps every element of the input to some element of
the output. -/
theorem mapM_some_mem_left {α β : Type} (f : α → Option β) :
    ∀ (l : List α) (rs : List β), l.mapM f = some rs →
      ∀ a ∈ l, ∃ r ∈ rs, f a = some r := by
  intro l
  induction l with
  | nil => intro rs _ a ha; simp at ha
  | cons x xs ih =>
      intro rs h a ha
      rw [List.mapM_cons] at h
      cases hx : f x with
      | none => rw [hx] at h; simp at h
      | some r =>
          rw [hx] at h
          cases hrec : xs.mapM f with
          | none => rw [hrec] at h; simp at h
          | some rest =>
              rw [hrec] at h
              simp at h
              subst h
              cases List.mem_cons.mp ha with
              | inl he => exact ⟨r, by simp, by rw [he]; exact hx⟩
              | inr he =>
                  obtain ⟨r', hr', hfr'⟩ := ih rest hrec a he
                  exact ⟨r', by simp [hr'], hfr'⟩

/-- A successful `mapM` produces every output element from some input. -/
theorem mapM_some_mem_right {α β : Type} (f : α → Option β) :
    ∀ (l : List α) (rs : List β), l.mapM f = some rs →
      ∀ r ∈ rs, ∃ a ∈ l, f a = some r := by
  intro l
  induction l with
  | nil =>
      intro rs h r hr
      simp only [List.mapM_nil, Option.pure_def, Option.some.injEq] at h
      subst h; simp at hr
  | cons x xs ih =>
      intro rs h r hr
      rw [List.mapM_cons] at h
      cases hx : f x with
      | none => rw [hx] at h; simp at h
      | some r0 =>
          rw [hx] at h
          cases hrec : xs.mapM f with
          | none => rw [hrec] at h; simp at h
          | some rest =>
              rw [hrec] at h
              simp at h
              subst h
              cases List.mem_cons.mp hr with
              | inl he => exact ⟨x, by simp, by rw [he]; exact hx⟩
              | inr he =>
                  obtain ⟨a, ha, hfa⟩ := ih rest hrec r he
                  exact ⟨a, by simp [ha], hfa⟩

/-- A successful `mapM` over an append splits into successful runs. -/
theorem mapM_append_decomp {α β : Type} (f : α → Option β) :
    ∀ (pre rest : List α) (rs : List β),
      (pre ++ rest).mapM f = some rs →
      ∃ rs1 rs2, rs = rs1 ++ rs2 ∧ pre.mapM f = some rs1 ∧
        rest.mapM f = some rs2 := by
  intro pre
  induction pre with
  | nil =>
      intro rest rs h
      exact ⟨[], rs, by simp, rfl, by simpa using h⟩
  | cons x xs ih =>
      intro rest rs h
      rw [List.cons_append, List.mapM_cons] at h
      cases hx : f x with
      | none => rw [hx] at h; simp at h
      | some r0 =>
          rw [hx] at h
          cases hrec : (xs ++ rest).mapM f with
          | none => rw [hrec] at h; simp at h
          | some rs' =>
              rw [hrec] at h
              simp at h
              subst h
              obtain ⟨rs1, rs2, hsplit, h1, h2⟩ := ih rest rs' hrec
              refine ⟨r0 :: rs1, rs2, by simp [hsplit], ?_, h2⟩
              rw [List.mapM_cons, hx, h1]
              rfl

/-- Unfolding `doTransition` over a successful loop run. -/
theorem doTransition_eq (svc : UrlTypeFactoryService) (tr tr' : Transition)
    (rs : List (Except UrlTypeFactoryResolveError Val))
    (h : runParams tr (getTypeIdsFromStateObject svc tr.targetState true)
          (getTypeIdsFromStateObject svc tr.targetState false) =
        some (tr', rs)) :
    doTransition svc tr = some (tr', promiseAll rs) := by
  unfold doTransition
  rw [h]

/-- C4: under the precondition that every typed parameter of the target
state carries a resolver closure (otherwise the source throws
synchronously before any promise is built), `doTransition` returns the
`Promise.all` aggregate of all the per-parameter resolutions: it fulfills
exactly when every typed parameter's resolution fulfills; when parameters
reject, it rejects with the `UrlTypeFactoryResolveError` wrapping the first
(in parameter order) rejecting parameter's id and the underlying cause; and
failures neither cancel nor undo the sibling parameters' resolutions —
every fulfilled parameter's resolved value is still written back into every
tree node declaring it. -/
theorem doTransition_aggregate (svc : UrlTypeFactoryService) (tr : Transition)
    (h : ∀ id ∈ getTypeIdsFromStateObject svc tr.targetState false,
        (settleOf tr.toParams id).isSome) :
    ∃ tr' res, doTransition svc tr = some (tr', res) ∧
      ((∃ vs, res = Except.ok vs) ↔
        ∀ id ∈ getTypeIdsFromStateObject svc tr.targetState false,
          ∃ v, settleOf tr.toParams id = some (.fulfilled v)) ∧
      (∀ (pre post : List String) (id : String) (e : Val),
        getTypeIdsFromStateObject svc tr.targetState false = pre ++ id :: post →
        settleOf tr.toParams id = some (.rejected e) →
        (∀ j ∈ pre, ∀ e', settleOf tr.toParams j ≠ some (.rejected e')) →
        res = Except.error (UrlTypeFactoryResolveError.mk id e)) ∧
      (∀ id ∈ getTypeIdsFromStateObject svc tr.targetState false,
        ∀ v, settleOf tr.toParams id = some (.fulfilled v) →
        ∀ n ∈ tr'.treeTo, hasProp n.paramValues id = true →
          getProp n.paramValues id = v) := by
  have hrun := runParams_isSome
    (getTypeIdsFromStateObject svc tr.targetState true)
    (getTypeIdsFromStateObject svc tr.targetState false) tr h
  cases hrec : runParams tr (getTypeIdsFromStateObject svc tr.targetState true)
      (getTypeIdsFromStateObject svc tr.targetState false) with
  | none => rw [hrec] at hrun; simp at hrun
  | some pr =>
      obtain ⟨tr', rs⟩ := pr
      obtain ⟨hto, hstate, htree, hmap⟩ := runParams_char _ _ tr tr' rs hrec
      refine ⟨tr', promiseAll rs, doTransition_eq svc tr tr' rs hrec,
        ?_, ?_, ?_⟩
      · constructor
        · rintro ⟨vs, hvs⟩ id hid
          have hallok := (promiseAll_ok_iff rs).mp ⟨vs, hvs⟩
          obtain ⟨r, hrmem, hfr⟩ := mapM_some_mem_left _ _ _ hmap id hid
          obtain ⟨v, hv⟩ := hallok r hrmem
          subst hv
          unfold settleExcept at hfr
          cases hso : settleOf tr.toParams id with
          | none => rw [hso] at hfr; simp at hfr
          | some o =>
              rw [hso] at hfr
              cases o with
              | fulfilled w => exact ⟨w, rfl⟩
              | rejected e2 => simp at hfr
        · intro hall
          apply (promiseAll_ok_iff rs).mpr
          intro r hr
          obtain ⟨id, hidmem, hfid⟩ := mapM_some_mem_right _ _ _ hmap r hr
          obtain ⟨v, hv⟩ := hall id hidmem
          unfold settleExcept at hfid
          rw [hv] at hfid
          simp at hfid
          exact ⟨v, hfid.symm⟩
      · intro pre post id e hsplit hrej hpre
        rw [hsplit] at hmap
        obtain ⟨rs1, rs2, hrs, h1, h2⟩ := mapM_append_decomp _ _ _ _ hmap
        rw [List.mapM_cons] at h2
        have hse : settleExcept tr.toParams id =
            some (.error (UrlTypeFactoryResolveError.mk id e)) := by
          unfold settleExcept; rw [hrej]; rfl
        rw [hse] at h2
        cases hpost : post.mapM (settleExcept tr.toParams) with
        | none => rw [hpost] at h2; simp at h2
        | some rest =>
            rw [hpost] at h2
            simp at h2
            subst h2
            subst hrs
            apply promiseAll_first_error
            intro r hr
            obtain ⟨j, hjmem, hfj⟩ := mapM_some_mem_right _ _ _ h1 r hr
            have hj_in : j ∈ getTypeIdsFromStateObject svc tr.targetState false := by
              rw [hsplit]; exact List.mem_append_left _ hjmem
            have hjs := h j hj_in
            cases hso : settleOf tr.toParams j with
            | none => rw [hso] at hjs; simp at hjs
            | some o =>
                cases o with
                | fulfilled w =>
                    unfold settleExcept at hfj
                    rw [hso] at hfj
                    simp at hfj
                    exact ⟨w, hfj.symm⟩
                | rejected e' => exact absurd hso (hpre j hjmem e')
      · intro id hid v hsv n hn hhas
        rw [htree] at hn
        obtain ⟨n0, hn0, rfl⟩ := List.mem_map.mp hn
        rw [hasProp_nodeCommit] at hhas
        exact getProp_nodeCommit tr.toParams id v hsv _ n0 hhas (Or.inl hid)

/-- Witness for C4, at a concrete transition with a fulfilling parameter
(`param1 : SyncTest`) and a rejecting one (`param2 : ResolveTest`). -/
theorem doTransition_aggregate_witness :
    ∃ tr' res, doTransition sampleSvc sampleTransitionFail = some (tr', res) ∧
      ((∃ vs, res = Except.ok vs) ↔
        ∀ id ∈ getTypeIdsFromStateObject sampleSvc
            sampleTransitionFail.targetState false,
          ∃ v, settleOf sampleTransitionFail.toParams id =
            some (.fulfilled v)) ∧
      (∀ (pre post : List String) (id : String) (e : Val),
        getTypeIdsFromStateObject sampleSvc sampleTransitionFail.targetState
            false = pre ++ id :: post →
        settleOf sampleTransitionFail.toParams id = some (.rejected e) →
        (∀ j ∈ pre, ∀ e',
          settleOf sampleTransitionFail.toParams j ≠ some (.rejected e')) →
        res = Except.error (UrlTypeFactoryResolveError.mk id e)) ∧
      (∀ id ∈ getTypeIdsFromStateObject sampleSvc
          sampleTransitionFail.targetState false,
        ∀ v, settleOf sampleTransitionFail.toParams id =
            some (.fulfilled v) →
        ∀ n ∈ tr'.treeTo, hasProp n.paramValues id = true →
          getProp n.paramValues id = v) :=
  doTransition_aggregate sampleSvc sampleTransitionFail (by decide)

/-- C5: whenever `doTransition` fulfills, every typed parameter id of the
target state has a fully resolved object (the value its resolution
fulfilled with, not the intermediate Decoded Parameter Value), and every
tree node of the target change-set whose own parameter-value record
contains the id holds exactly that object afterwards — hence all such nodes
agree. -/
theorem doTransition_tree_consistency (svc : UrlTypeFactoryService)
    (tr tr' : Transition) (vs : List Val)
    (h : doTransition svc tr = some (tr', Except.ok vs)) :
    ∀ id ∈ getTypeIdsFromStateObject svc tr.targetState false,
      ∃ v, settleOf tr.toParams id = some (.fulfilled v) ∧
        ∀ n ∈ tr'.treeTo, hasProp n.paramValues id = true →
          getProp n.paramValues id = v := by
  unfold doTransition at h
  cases hrec : runParams tr (getTypeIdsFromStateObject svc tr.targetState true)
      (getTypeIdsFromStateObject svc tr.targetState false) with
  | none => rw [hrec] at h; exact absurd h (by simp)
  | some pr =>
      obtain ⟨tr'', rs⟩ := pr
      rw [hrec] at h
      simp only [Option.some.injEq, Prod.mk.injEq] at h
      obtain ⟨h1, h2⟩ := h
      rw [h1] at hrec
      obtain ⟨hto, hstate, htree, hmap⟩ := runParams_char _ _ tr tr' rs hrec
      intro id hid
      obtain ⟨r, hrmem, hfr⟩ := mapM_some_mem_left _ _ _ hmap id hid
      obtain ⟨v, hv⟩ := (promiseAll_ok_iff rs).mp ⟨vs, h2⟩ r hrmem
      subst hv
      unfold settleExcept at hfr
      cases hso : settleOf tr.toParams id with
      | none => rw [hso] at hfr; simp at hfr
      | some o =>
          rw [hso] at hfr
          cases o with
          | rejected e => simp at hfr
          | fulfilled w =>
              refine ⟨w, rfl, ?_⟩
              intro n hn hhas
              rw [htree] at hn
              obtain ⟨n0, hn0, rfl⟩ := List.mem_map.mp hn
              rw [hasProp_nodeCommit] at hhas
              exact getProp_nodeCommit tr.toParams id w hso _ n0 hhas
                (Or.inl hid)

/-- Witness for C5 at the concrete fulfilled transition: `param1` resolves
to the fetched object, and the first tree node (which declares `param1`)
holds exactly that object afterwards. -/
theorem doTransition_tree_consistency_witness :
    settleOf sampleTransitionOk.toParams "param1" =
      some (POutcome.fulfilled syncResolvedObj) ∧
    getProp ({ paramValues := [("param1", syncResolvedObj)] } :
      TreeNode).paramValues "param1" = syncResolvedObj := by
  have h := doTransition_tree_consistency sampleSvcOk sampleTransitionOk
    sampleTransitionOkAfter [syncResolvedObj] (by rfl)
  obtain ⟨v, hv, hn⟩ := h "param1" (by decide)
  have hv0 : settleOf sampleTransitionOk.toParams "param1" =
      some (POutcome.fulfilled syncResolvedObj) := rfl
  have hveq : v = syncResolvedObj := by
    have hc := hv0.symm.trans hv
    simp only [Option.some.injEq, POutcome.fulfilled.injEq] at hc
    exact hc.symm
  subst hveq
  refine ⟨hv0, ?_⟩
  exact hn ({ paramValues := [("param1", syncResolvedObj)] } : TreeNode)
    (List.mem_cons_self _ _) rfl

/-- C6: for every typed parameter processed by `doTransition` whose value
carries a resolver closure returning `r`, the resolution settles as the
normalization of `r`: a result whose `$promise` field exposes an awaitable
contract (a callable `then`) is awaited through that awaitable; any other
result is passed to the already-settled-awaitable wrapper
(`Promise.resolve`), which adopts a native awaitable result and fulfills
directly with a plain value or with an object whose `$promise` field is not
a thenable — covering direct values, promise-wrapped values, and native
awaitables. -/
theorem doTransition_normalizes_resolve_results (tr : Transition)
    (id : String) (r : ResolveRes)
    (h : rslvProp (getProp tr.toParams id) = some r) :
    paramSettlement tr id = some (normalizeResolved r) ∧
    (∀ o : POutcome, normalizeResolved (.wrapped o) = o) ∧
    (∀ o : POutcome, normalizeResolved (.native o) = o) ∧
    (∀ v : Val, normalizeResolved (.direct v) = .fulfilled v) ∧
    (∀ v : Val, normalizeResolved (.wrappedNon v) = .fulfilled v) := by
  refine ⟨?_, fun o => rfl, fun o => rfl, fun v => rfl, fun v => rfl⟩
  unfold paramSettlement
  rw [h]
  rfl

/-- Witness for C6 at a concrete transition and concrete resolve results of
each kind. -/
theorem doTransition_normalizes_resolve_results_witness :
    paramSettlement sampleTransitionNative "param1" =
      some (normalizeResolved (.native (.fulfilled (.str "v")))) ∧
    normalizeResolved (.wrapped (.rejected (.str "e"))) =
      .rejected (.str "e") ∧
    normalizeResolved (.native (.fulfilled (.str "v"))) =
      .fulfilled (.str "v") ∧
    normalizeResolved (.direct (.str "d")) = .fulfilled (.str "d") ∧
    normalizeResolved (.wrappedNon .null) = .fulfilled .null := by
  have h := doTransition_normalizes_resolve_results sampleTransitionNative
    "param1" (.native (.fulfilled (.str "v"))) rfl
  exact ⟨h.1, h.2.1 _, h.2.2.1 _, h.2.2.2.1 _, h.2.2.2.2 _⟩

/-- Pushing through the parameter-collecting fold: the loop that appends
matching parameters equals filtering. -/
theorem foldl_push_filter (c : Param → Bool) :
    ∀ (ps : List Param) (acc : List Param),
      ps.foldl (fun a p => if c p then a ++ [p] else a) acc =
        acc ++ ps.filter c := by
  intro ps
  induction ps with
  | nil => intro acc; simp
  | cons p rest ih =>
      intro acc
      by_cases h : c p <;>
        simp [List.foldl_cons, h, ih, List.filter_cons]

/-- Pushing through the path-walking fold: collecting over all path states
equals filtering the concatenation of their parameter lists. -/
theorem foldl_paths_filter (c : Param → Bool) :
    ∀ (path : List PathState) (acc : List Param),
      path.foldl
        (fun found ps =>
          ps.params.foldl (fun a p => if c p then a ++ [p] else a) found)
        acc =
      acc ++ (path.flatMap fun ps => ps.params).filter c := by
  intro path
  induction path with
  | nil => intro acc; simp
  | cons ps rest ih =>
      intro acc
      simp only [List.foldl_cons, List.flatMap_cons, List.filter_append]
      rw [foldl_push_filter c ps.params acc, ih, List.append_assoc]

/-- C9: `getTypeParamsFromStateObject` returns exactly the parameters
declared on the state's path states whose declared type name is registered
in the requested subset, in path order, with no deduplication; being a pure
function of the registry and the state, it modifies neither.  The requested
subset is the full registered list, or the bindable sublist when
`bindableOnly` is set. -/
theorem getTypeParamsFromStateObject_spec (svc : UrlTypeFactoryService)
    (state : StateObject) (bindableOnly : Bool) :
    getTypeParamsFromStateObject svc state bindableOnly =
      (state.path.flatMap fun ps => ps.params).filter
        (fun p => (getTypeByName svc p.typeName bindableOnly).isSome) ∧
    (∀ n : String, (getTypeByName svc n bindableOnly).isSome ↔
      ∃ t ∈ (if bindableOnly then svc._bindableTypes
             else svc._registeredTypes), t.name = n) := by
  constructor
  · unfold getTypeParamsFromStateObject
    rw [foldl_paths_filter]
    simp
  · intro n
    unfold getTypeByName
    rw [List.find?_isSome]
    simp
